import Mathlib

/-!
Verification of the Agent Guardrails SDK (TypeScript) authorization core.

The definitions below are a shallow embedding of the source files
`js/src/policies.ts`, `js/src/agent.ts`, `js/src/types.ts` and
`js/src/storage.ts`:
- JavaScript runtime values occurring in parameter bags are modelled by
  `JsValue` (strings, integers, booleans, `null`, `undefined`); `String(x)`
  is `jsToString`, JS truthiness is `truthy`, `a || b` is `jsOr`.
- JS numbers are modelled as rationals (`Option ℚ`, with `none` playing
  the role of `NaN`, which propagates through addition and makes every
  comparison false, exactly as IEEE NaN does).  Two arithmetic readings
  coexist: the EXACT decimal arithmetic the specification prescribes
  (`jsAdd`, `isWithinLimits`), and the faithful binary64 arithmetic of the
  JS engine (`roundToBinary64`, `jsAdd64`, `isWithinLimits64`,
  `parseTimeWindow`), which rounds at every parse, addition and
  multiplication.  The two coincide wherever all values and partial sums
  are exactly representable in binary64.
- `Date` values reaching the window comparison are modelled by
  `Option Int` (milliseconds since epoch; `none` is an Invalid Date, whose
  time value is NaN, so that every `<` comparison on it is false).
- The fallible storage driver is modelled by passing the outcomes of its
  individual operations (`loadAgent`, `getLogs`, `appendLog`) as `Except`
  values into the decision engine.
-/

deriving instance DecidableEq for Except

/-- A JavaScript runtime value as it can occur in a parameter bag or in a
rule-constraint mapping. -/
inductive JsValue where
  | str : String → JsValue
  | int : Int → JsValue
  | bool : Bool → JsValue
  | null : JsValue
  | undefined : JsValue
deriving DecidableEq, Repr

/-- JavaScript `String(x)` for the values of `JsValue`. -/
def jsToString : JsValue → String
  | .str s => s
  | .int i => toString i
  | .bool b => if b then "true" else "false"
  | .null => "null"
  | .undefined => "undefined"

/-- JavaScript truthiness for the values of `JsValue`. -/
def truthy : JsValue → Bool
  | .str s => s ≠ ""
  | .int i => i ≠ 0
  | .bool b => b
  | .null => false
  | .undefined => false

/-- JavaScript `a || b`: `a` when truthy, otherwise `b`. -/
def jsOr (a b : JsValue) : JsValue :=
  if truthy a then a else b

/-- JS object member access `params[key]` on a parameter bag: an absent key
reads as `undefined`. -/
def lookupParam (params : List (String × JsValue)) (key : String) : JsValue :=
  ((params.find? (fun p => p.1 == key)).map (·.2)).getD .undefined

/-- `AllowRule` from types.ts. -/
structure AllowRule where
  action_type : String
  constraints : List (String × JsValue)
deriving DecidableEq, Repr

/-- `LimitConfig` from types.ts (the amount is stored as a string). -/
structure LimitConfig where
  asset : String
  amount : String
  window_seconds : Nat
deriving DecidableEq, Repr

/-- `LogEntry` from types.ts.  The `timestamp` field is the time value that
`new Date(log.timestamp)` produces from the stored ISO string: milliseconds
since epoch, or `none` for an Invalid Date (NaN time value - JS `new Date`
never throws on a malformed string). -/
structure LogEntry where
  timestamp : Option Int
  agent_id : String
  action_type : String
  params : List (String × JsValue)
  allowed : Bool
  reason : Option String
deriving DecidableEq, Repr

/-- `AgentConfig` from types.ts (the fields the decision engine reads). -/
structure AgentConfig where
  agent_id : String
  wallet : String
  limits : List (String × LimitConfig)
  allow_rules : List AllowRule
deriving DecidableEq, Repr

/-- JS `config.limits[asset]` record lookup (property keys are strings). -/
def lookupLimit (limits : List (String × LimitConfig)) (key : String) :
    Option LimitConfig :=
  (limits.find? (fun p => p.1 == key)).map (·.2)

/-- `ruleMatches` from policies.ts: an empty constraint mapping matches
anything; otherwise every constraint must satisfy
`String(params[key]) === String(expectedValue)`. -/
def ruleMatches (rule : AllowRule) (params : List (String × JsValue)) : Bool :=
  if rule.constraints.isEmpty then true
  else rule.constraints.all
    (fun kv => jsToString (lookupParam params kv.1) == jsToString kv.2)

/-- `isActionAllowedByRules` from policies.ts: filter the rules to the
request's action type; deny if none remain, otherwise allow iff some
remaining rule matches. -/
def isActionAllowedByRules (actionType : String)
    (params : List (String × JsValue)) (rules : List AllowRule) : Bool :=
  let relevantRules := rules.filter (fun r => r.action_type == actionType)
  if relevantRules.isEmpty then false
  else relevantRules.any (fun r => ruleMatches r params)

/-- An ASCII single-quote character, used to reproduce the exact error
message text of the source. -/
def squo : String := String.mk [Char.ofNat 39]

/-- The error message thrown by `parseTimeWindow` for a malformed token
(policies.ts); it carries the offending token between single quotes. -/
def invalidWindowMessage (window : String) : String :=
  "Invalid time window format: " ++ squo ++ window ++ squo ++
    ". Expected format: <number><h|d> (e.g., " ++ squo ++ "24h" ++ squo ++
    ", " ++ squo ++ "7d" ++ squo ++ ")"

/-- The exact decimal value of an all-digit string - the value JS
`parseInt(ds, 10)` computes before rounding it to binary64 (the rounding is
applied where `parseTimeWindow` uses it). -/
def digitsVal (ds : List Char) : Nat :=
  ds.foldl (fun a c => 10 * a + (c.toNat - 48)) 0

/-!
A binary64 (IEEE-754 double, round-to-nearest-even) value model, used to
express what the source's `parseFloat`/`+`/`<=` arithmetic does on a real
JavaScript engine, in contrast to the exact decimal arithmetic the
specification prescribes.  Subnormal underflow and overflow to infinity are
outside the range of any value considered here and are not modelled.
-/

/-- Round a rational to an integer, ties to even. -/
def roundHalfEven (q : ℚ) : Int :=
  let f := Int.floor q
  let frac := q - (f : ℚ)
  if frac < 1/2 then f
  else if 1/2 < frac then f + 1
  else if f % 2 = 0 then f else f + 1

/-- `2 ^ k` as a rational, for an integer exponent. -/
def pow2z (k : Int) : ℚ :=
  if 0 ≤ k then ((2 ^ k.toNat : ℕ) : ℚ) else 1 / ((2 ^ (-k).toNat : ℕ) : ℚ)

/-- Finds the scaling exponent `k` with `2^52 ≤ q * 2^k < 2^53` for a
positive rational `q`, by bounded search. -/
def findExp : Nat → ℚ → Int → Int
  | 0, _, k => k
  | fuel + 1, q, k =>
    if q * pow2z k < ((2 ^ 52 : ℕ) : ℚ) then findExp fuel q (k + 1)
    else if (((2 ^ 53 : ℕ) : ℚ)) ≤ q * pow2z k then findExp fuel q (k - 1)
    else k

/-- Round a positive rational to the nearest binary64 value (53-bit
significand, ties to even). -/
def roundPos64 (q : ℚ) : ℚ :=
  let k := findExp 3000 q 0
  ((roundHalfEven (q * pow2z k) : ℤ) : ℚ) / pow2z k

/-- Round a rational to the nearest binary64 value. -/
def roundToBinary64 (q : ℚ) : ℚ :=
  if q = 0 then 0
  else if q < 0 then - roundPos64 (-q)
  else roundPos64 q

/-- `parseTimeWindow` from policies.ts.  The regex `^(\d+)([hd])$/i` is
embedded structurally: the token must be a nonempty digit string followed by
a single unit character whose lower-case form is `h` or `d`.  The source's
final `Unknown time unit` branch is unreachable (the regex only ever
captures h/d) and is folded into the non-match failure here.  The result is
a JS number: `parseInt` rounds the exact digit-string value to binary64,
and the multiplication by 3600/86400 rounds again, so counts at or beyond
2^53 come back rounded rather than exact. -/
def parseTimeWindow (window : String) : Except String ℚ :=
  match window.data.reverse with
  | [] => .error (invalidWindowMessage window)
  | u :: revRest =>
    if revRest.reverse = [] then .error (invalidWindowMessage window)
    else if (revRest.reverse).all Char.isDigit then
      if u.toLower = 'h' then
        .ok (roundToBinary64 (roundToBinary64 ((digitsVal revRest.reverse : ℕ) : ℚ) * 3600))
      else if u.toLower = 'd' then
        .ok (roundToBinary64 (roundToBinary64 ((digitsVal revRest.reverse : ℕ) : ℚ) * 86400))
      else .error (invalidWindowMessage window)
    else .error (invalidWindowMessage window)

/-- `(10 : ℚ) ^ n` computed through natural-number powers (kernel friendly). -/
def pow10 (n : Nat) : ℚ := ((10 ^ n : ℕ) : ℚ)

/-- The characters JS `parseFloat` skips as leading whitespace. -/
def isJsSpace (c : Char) : Bool :=
  c = ' ' ∨ c = '\t' ∨ c = '\n' ∨ c = '\r'

/-- Splits off a (possibly empty) leading run of decimal digits. -/
def takeDigits (cs : List Char) : List Char × List Char :=
  (cs.takeWhile Char.isDigit, cs.dropWhile Char.isDigit)

/-- JS `parseFloat`: parses the longest numeric prefix (optional sign,
integer part, optional fraction, optional exponent) and returns NaN
(modelled as `none`) when no digits are found.  `parseFloat` never throws,
so the `try`/`catch` around it in the source is dead code.  The special
`Infinity` literals are not modelled (no claim concerns them), and the
decimal value is kept exact as a rational - binary64 rounding is treated
separately below. -/
def jsParseFloat (s : String) : Option ℚ :=
  let cs := s.data.dropWhile isJsSpace
  let signAndRest : ℚ × List Char :=
    match cs with
    | '-' :: r => (-1, r)
    | '+' :: r => (1, r)
    | _ => (1, cs)
  let sign := signAndRest.1
  let cs1 := signAndRest.2
  let ipRest := takeDigits cs1
  let ip := ipRest.1
  let cs2 := ipRest.2
  let fpRest : List Char × List Char :=
    match cs2 with
    | '.' :: r => takeDigits r
    | _ => ([], cs2)
  let fp := fpRest.1
  let cs3 := fpRest.2
  if ip = [] ∧ fp = [] then none
  else
    let mantissa : ℚ := (digitsVal ip : ℚ) + (digitsVal fp : ℚ) / pow10 fp.length
    let expVal : Int :=
      match cs3 with
      | 'e' :: r =>
        match r with
        | '-' :: r2 => if (takeDigits r2).1 = [] then 0 else -((digitsVal (takeDigits r2).1 : Int))
        | '+' :: r2 => if (takeDigits r2).1 = [] then 0 else ((digitsVal (takeDigits r2).1 : Int))
        | _ => if (takeDigits r).1 = [] then 0 else ((digitsVal (takeDigits r).1 : Int))
      | 'E' :: r =>
        match r with
        | '-' :: r2 => if (takeDigits r2).1 = [] then 0 else -((digitsVal (takeDigits r2).1 : Int))
        | '+' :: r2 => if (takeDigits r2).1 = [] then 0 else ((digitsVal (takeDigits r2).1 : Int))
        | _ => if (takeDigits r).1 = [] then 0 else ((digitsVal (takeDigits r).1 : Int))
      | _ => 0
    let scaled : ℚ :=
      if 0 ≤ expVal then mantissa * pow10 expVal.toNat
      else mantissa / pow10 (-expVal).toNat
    some (sign * scaled)

/-- JS `+` on numbers with the binary64 rounding abstracted away (exact
rational addition): the idealized decimal arithmetic the specification
prescribes.  NaN (`none`) propagates.  The faithful rounded addition is
`jsAdd64` below; the two coincide whenever operands and sum are exactly
representable (in particular on the integer amounts of the scenarios the
spec enumerates). -/
def jsAdd (a b : Option ℚ) : Option ℚ :=
  match a, b with
  | some x, some y => some (x + y)
  | _, _ => none

/-- JS `<=` on numbers: any comparison involving NaN is false. -/
def jsLe (a b : Option ℚ) : Bool :=
  match a, b with
  | some x, some y => x ≤ y
  | _, _ => false

/-- The `logTime < windowStart` test of `isWithinLimits`: an Invalid Date
(`none`, time value NaN) compares false, so such an entry is NOT skipped. -/
def tsSkip (log : LogEntry) (windowStart : Int) : Bool :=
  match log.timestamp with
  | some t => t < windowStart
  | none => false

/-- `logParams.asset || logParams.token` for a history entry. -/
def entryAsset (log : LogEntry) : JsValue :=
  jsOr (lookupParam log.params "asset") (lookupParam log.params "token")

/-- `logParams.amount` for a history entry. -/
def amountVal (log : LogEntry) : JsValue :=
  lookupParam log.params "amount"

/-- One iteration of the spend loop in `isWithinLimits` (policies.ts):
skip denied entries; skip entries whose (valid) time is before the window
start; count an entry when its asset-or-token strictly equals the target
asset and its amount is neither `undefined` nor `null`, adding
`parseFloat(String(logAmount))` to the accumulator (NaN poisons it). -/
def spentFold (asset : JsValue) (windowStart : Int) (acc : Option ℚ)
    (log : LogEntry) : Option ℚ :=
  if ¬ log.allowed then acc
  else if tsSkip log windowStart then acc
  else if entryAsset log ≠ asset then acc
  else if amountVal log = .undefined ∨ amountVal log = .null then acc
  else jsAdd acc (jsParseFloat (jsToString (amountVal log)))

/-- The `totalSpent` accumulator of `isWithinLimits` over the whole history. -/
def totalSpent (asset : JsValue) (windowStart : Int) (logs : List LogEntry) :
    Option ℚ :=
  logs.foldl (spentFold asset windowStart) (some 0)

/-- `isWithinLimits` from policies.ts under EXACT decimal arithmetic - the
semantics the specification's design notes prescribe.  Control flow, NaN
propagation and entry filtering follow the source exactly, but the source's
`parseFloat`/native-float sum and comparison round to binary64 at every
step; `isWithinLimits64` below is the arithmetically faithful embedding,
and the two coincide on histories whose amounts and partial sums are
exactly representable in binary64 (e.g. all-integer amounts).  `asset` is
the raw `params.asset || params.token` value of the request (typed `string`
in the source but any runtime value can arrive); `asset !== limitCfg.asset`
is strict JS equality, true only for an identical string.  The log list
stands for `storage.getLogs(agentId)`. -/
def isWithinLimits (asset : JsValue) (amount : String) (limitCfg : LimitConfig)
    (logs : List LogEntry) (now : Int) : Bool :=
  if asset ≠ JsValue.str limitCfg.asset then false
  else
    let windowStart : Int := now - (limitCfg.window_seconds : Int) * 1000
    jsLe (jsAdd (totalSpent asset windowStart logs) (jsParseFloat amount))
      (jsParseFloat limitCfg.amount)

/-- The denial reason template of the limit branch in agent.ts. -/
def exceedsMessage (assetVal : JsValue) (limitCfg : LimitConfig) : String :=
  "Exceeds " ++ jsToString assetVal ++ " limit of " ++ limitCfg.amount ++
    " per " ++ toString limitCfg.window_seconds ++ "s"

/-- `logDecision` followed by returning a result: the decision is appended
to the log (its outcome is `append1`) and, if the append throws, the
exception escapes to the enclosing `try`. -/
def afterAppend (append1 : Except String Unit) (r : Bool × Option String) :
    Except String (Bool × Option String) :=
  match append1 with
  | .ok _ => .ok r
  | .error e => .error e

/-- `Agent.authorize` from agent.ts, with the storage collaborator's
behaviour passed in explicitly:
- `load` is the outcome of `loadConfig`'s `storage.loadAgent` read
  (`.error` when the store throws, `.ok none` when the agent is missing);
- `logsRes` is the outcome of the `storage.getLogs(agentId)` read performed
  inside `isWithinLimits`, forced only if the limit branch is reached;
- `append1` is the outcome of the `logDecision` append on whichever normal
  path is taken inside the `try`;
- `append2` is the outcome of the second `logDecision` append attempted by
  the `catch` block - if that one throws too, the exception propagates out
  of `authorize` (the catch block's own append is not protected).
The result is the returned verdict together with the logged reason, or
`.error` when `authorize` itself throws. -/
def authorizeE (load : Except String (Option AgentConfig))
    (logsRes : Except String (List LogEntry))
    (append1 append2 : Except String Unit)
    (agentId : String) (now : Int) (actionType : String)
    (params : List (String × JsValue)) : Except String (Bool × Option String) :=
  let inner : Except String (Bool × Option String) :=
    match load with
    | .error e => .error e
    | .ok none => .error ("Agent " ++ agentId ++ " not found in storage")
    | .ok (some config) =>
      if ¬ isActionAllowedByRules actionType params config.allow_rules then
        afterAppend append1 (false, some "Action not in allowlist")
      else
        let amount := lookupParam params "amount"
        let assetVal := jsOr (lookupParam params "asset") (lookupParam params "token")
        match (if truthy amount ∧ truthy assetVal then
                 lookupLimit config.limits (jsToString assetVal)
               else none) with
        | some limitCfg =>
          match logsRes with
          | .error e => .error e
          | .ok logs =>
            if ¬ isWithinLimits assetVal (jsToString amount) limitCfg logs now then
              afterAppend append1 (false, some (exceedsMessage assetVal limitCfg))
            else
              afterAppend append1 (true, none)
        | none =>
          afterAppend append1 (true, none)
  match inner with
  | .ok r => .ok r
  | .error e =>
    match append2 with
    | .ok _ => .ok (false, some ("Error during authorization: " ++ e))
    | .error e2 => .error e2

/-- The guard of the limit branch in agent.ts:
`amount && asset && config.limits[asset]`. -/
def limitNeeded (cfg : AgentConfig) (params : List (String × JsValue)) : Bool :=
  truthy (lookupParam params "amount") &&
  truthy (jsOr (lookupParam params "asset") (lookupParam params "token")) &&
  (lookupLimit cfg.limits
    (jsToString (jsOr (lookupParam params "asset")
      (lookupParam params "token")))).isSome

/-- The persisted `StorageData` document from types.ts / storage.ts. -/
structure StorageData where
  agents : List (String × AgentConfig)
  logs : List LogEntry
deriving DecidableEq, Repr

/-- `JsonFileStorage.loadAgent`: `data.agents[agentId] || null`. -/
def loadAgent (s : StorageData) (agentId : String) : Option AgentConfig :=
  (s.agents.find? (fun p => p.1 == agentId)).map (·.2)

/-- `JsonFileStorage.getLogs(agentId)` (no limit argument): the stored log
sequence filtered to the agent. -/
def getLogs (s : StorageData) (agentId : String) : List LogEntry :=
  s.logs.filter (fun log => log.agent_id == agentId)

/-- `authorize` run against an in-memory storage state whose operations all
succeed: reads come from `s`, appends succeed. -/
def authorizeS (s : StorageData) (agentId : String) (now : Int)
    (actionType : String) (params : List (String × JsValue)) :
    Except String (Bool × Option String) :=
  authorizeE (.ok (loadAgent s agentId)) (.ok (getLogs s agentId))
    (.ok ()) (.ok ()) agentId now actionType params

/-!
Claim-side definitions.  These follow the specification's words (not the
source) and are only ever compared with the source-derived definitions
above.
-/

/-- The spec's window test for a history entry: its timestamp is a valid
instant at or after the window start. -/
def tsInWindow (log : LogEntry) (windowStart : Int) : Bool :=
  match log.timestamp with
  | some t => windowStart ≤ t
  | none => false

/-- The conditions under which the source's spend loop actually adds a
parsed amount for an entry: verdict true, not skipped by the window test,
asset-or-token strictly equal to the target, and an amount value that is
neither `undefined` nor `null`. -/
def countedFull (asset : JsValue) (windowStart : Int) (log : LogEntry) : Prop :=
  log.allowed = true ∧ tsSkip log windowStart = false ∧
    entryAsset log = asset ∧
    ¬ (amountVal log = .undefined ∨ amountVal log = .null)

instance (asset : JsValue) (windowStart : Int) (log : LogEntry) :
    Decidable (countedFull asset windowStart log) := by
  unfold countedFull; infer_instance

/-- The spec's per-entry contribution to the in-window spend sum: an entry
contributes its parsed amount when its verdict was true, its timestamp is a
valid instant at or after the window start, and its asset-or-token equals
the target asset; otherwise (including unparsable or absent amounts) it
contributes zero. -/
def claimContribution (asset : JsValue) (windowStart : Int) (log : LogEntry) : ℚ :=
  if log.allowed = true ∧ tsInWindow log windowStart = true ∧ entryAsset log = asset
  then (jsParseFloat (jsToString (amountVal log))).getD 0
  else 0

/-- The spec's in-window allowed spend for an asset: the sum of the
per-entry contributions over the whole history. -/
def inWindowAllowedSpend (asset : JsValue) (windowStart : Int)
    (logs : List LogEntry) : ℚ :=
  (logs.map (claimContribution asset windowStart)).sum

/-- The rule-matching predicate exactly as the claim words it: some rule
with equal action type has every one of its constraint keys PRESENT in the
parameter bag with an equal string-normalized value. -/
def claimMatcher (actionType : String) (params : List (String × JsValue))
    (rules : List AllowRule) : Bool :=
  rules.any (fun r =>
    r.action_type == actionType &&
    r.constraints.all (fun kv =>
      (params.find? (fun p => p.1 == kv.1)).isSome &&
      (jsToString (lookupParam params kv.1) == jsToString kv.2)))

/-- `parseFloat` as a JS engine performs it: the exact decimal value of the
parsed prefix, correctly rounded to binary64. -/
def jsParseFloat64 (s : String) : Option ℚ :=
  (jsParseFloat s).map roundToBinary64

/-- JS `+` on binary64 numbers: exact addition followed by rounding; NaN
propagates. -/
def jsAdd64 (a b : Option ℚ) : Option ℚ :=
  match a, b with
  | some x, some y => some (roundToBinary64 (x + y))
  | _, _ => none

/-- The spend-loop step of `isWithinLimits` under binary64 arithmetic. -/
def spentFold64 (asset : JsValue) (windowStart : Int) (acc : Option ℚ)
    (log : LogEntry) : Option ℚ :=
  if ¬ log.allowed then acc
  else if tsSkip log windowStart then acc
  else if entryAsset log ≠ asset then acc
  else if amountVal log = .undefined ∨ amountVal log = .null then acc
  else jsAdd64 acc (jsParseFloat64 (jsToString (amountVal log)))

/-- The `totalSpent` accumulator under binary64 arithmetic. -/
def totalSpent64 (asset : JsValue) (windowStart : Int) (logs : List LogEntry) :
    Option ℚ :=
  logs.foldl (spentFold64 asset windowStart) (some 0)

/-- `isWithinLimits` under binary64 arithmetic: what the source's
`parseFloat`-and-native-float computation does on a JS engine. -/
def isWithinLimits64 (asset : JsValue) (amount : String)
    (limitCfg : LimitConfig) (logs : List LogEntry) (now : Int) : Bool :=
  if asset ≠ JsValue.str limitCfg.asset then false
  else
    let windowStart : Int := now - (limitCfg.window_seconds : Int) * 1000
    jsLe (jsAdd64 (totalSpent64 asset windowStart logs) (jsParseFloat64 amount))
      (jsParseFloat64 limitCfg.amount)

/-- The claim-side membership test for the in-window spend sum, as the
specification words it: verdict true, timestamp a valid instant at or after
the window start, asset-or-token equal to the target, and an amount value
that is present (neither `undefined` nor `null`). -/
def counted64 (asset : JsValue) (windowStart : Int) (log : LogEntry) : Bool :=
  log.allowed && tsInWindow log windowStart &&
    decide (entryAsset log = asset) &&
    !decide (amountVal log = .undefined ∨ amountVal log = .null)

/-- The claim-side in-window allowed spend under binary64 arithmetic: the
amounts of exactly the counted entries, each parsed to binary64 and
accumulated left-to-right with binary64 rounding at every addition. -/
def inWindowAllowedSpend64 (asset : JsValue) (windowStart : Int)
    (logs : List LogEntry) : ℚ :=
  (logs.filter (counted64 asset windowStart)).foldl
    (fun acc log =>
      roundToBinary64 (acc + (jsParseFloat64 (jsToString (amountVal log))).getD 0))
    0

/-!
Helper lemmas relating the source's spend accumulator to the claim-side sum.
-/

lemma jsParseFloat_undefined : jsParseFloat "undefined" = none := by decide

lemma jsParseFloat_null : jsParseFloat "null" = none := by decide

/-- `pow2z` on a nonnegative exponent. -/
lemma pow2z_ofNonneg (k : Int) (hk : 0 ≤ k) : pow2z k = ((2 ^ k.toNat : ℕ) : ℚ) := by
  unfold pow2z
  rw [if_pos hk]

/-- Doubling step for `pow2z` on nonnegative exponents. -/
lemma pow2z_succ (k : Int) (hk : 0 ≤ k) : pow2z (k + 1) = 2 * pow2z k := by
  rw [pow2z_ofNonneg k hk, pow2z_ofNonneg (k + 1) (by omega)]
  have h1 : (k + 1).toNat = k.toNat + 1 := by omega
  rw [h1, pow_succ]
  push_cast
  ring

/-- While the scaled value stays below 2^53, `findExp` never decrements, so
from a nonnegative start it returns a nonnegative exponent and preserves
the bound. -/
lemma findExp_nonneg : ∀ (fuel : Nat) (q : ℚ) (k : Int), 0 ≤ k →
    q * pow2z k < ((2 ^ 53 : ℕ) : ℚ) →
    0 ≤ findExp fuel q k ∧ q * pow2z (findExp fuel q k) < ((2 ^ 53 : ℕ) : ℚ)
  | 0, _, k, hk, hlt => ⟨hk, hlt⟩
  | fuel + 1, q, k, hk, hlt => by
    unfold findExp
    split_ifs with h1 h2
    · have hstep : q * pow2z (k + 1) < ((2 ^ 53 : ℕ) : ℚ) := by
        rw [pow2z_succ k hk]
        have he : q * (2 * pow2z k) = 2 * (q * pow2z k) := by ring
        have hc : ((2 ^ 53 : ℕ) : ℚ) = 2 * ((2 ^ 52 : ℕ) : ℚ) := by
          push_cast
          norm_num [pow_succ]
        rw [he, hc]
        linarith
      exact findExp_nonneg fuel q (k + 1) (by omega) hstep
    · exact absurd hlt (not_lt.mpr h2)
    · exact ⟨hk, hlt⟩

/-- Half-even rounding is the identity on integers. -/
lemma roundHalfEven_intCast (m : Int) : roundHalfEven (m : ℚ) = m := by
  unfold roundHalfEven
  rw [Int.floor_intCast]
  norm_num

/-- Binary64 rounding is exact on natural numbers below 2^53 (the scaled
value is an integer, which half-even rounding returns unchanged). -/
lemma roundToBinary64_nat_exact (n : ℕ) (h : n < 2 ^ 53) :
    roundToBinary64 (n : ℚ) = (n : ℚ) := by
  rcases Nat.eq_zero_or_pos n with h0 | hpos
  · subst h0
    simp [roundToBinary64]
  · have hq0 : ((n : ℚ)) ≠ 0 := by positivity
    have hqneg : ¬ ((n : ℚ) < 0) := not_lt.mpr (by positivity)
    unfold roundToBinary64
    rw [if_neg hq0, if_neg hqneg]
    have hrp : roundPos64 (n : ℚ) =
        ((roundHalfEven ((n : ℚ) * pow2z (findExp 3000 (n : ℚ) 0)) : ℤ) : ℚ) /
          pow2z (findExp 3000 (n : ℚ) 0) := rfl
    rw [hrp]
    have hstart : (n : ℚ) * pow2z 0 < ((2 ^ 53 : ℕ) : ℚ) := by
      rw [pow2z_ofNonneg 0 le_rfl]
      simpa using (Nat.cast_lt.mpr h : ((n : ℕ) : ℚ) < ((2 ^ 53 : ℕ) : ℚ))
    obtain ⟨hk0, -⟩ := findExp_nonneg 3000 (n : ℚ) 0 le_rfl hstart
    have hcast : (n : ℚ) * pow2z (findExp 3000 (n : ℚ) 0) =
        ((n * 2 ^ (findExp 3000 (n : ℚ) 0).toNat : ℕ) : ℚ) := by
      rw [pow2z_ofNonneg _ hk0]
      push_cast
      ring
    rw [hcast]
    have hre : roundHalfEven ((n * 2 ^ (findExp 3000 (n : ℚ) 0).toNat : ℕ) : ℚ) =
        ((n * 2 ^ (findExp 3000 (n : ℚ) 0).toNat : ℕ) : ℤ) := by
      have h2 := roundHalfEven_intCast ((n * 2 ^ (findExp 3000 (n : ℚ) 0).toNat : ℕ) : ℤ)
      simpa using h2
    rw [hre, pow2z_ofNonneg _ hk0]
    have hne : ((2 : ℚ)) ^ (findExp 3000 (n : ℚ) 0).toNat ≠ 0 := by positivity
    push_cast
    field_simp

/-- On an entry with a valid timestamp whose countable amounts parse, one
step of the source's spend loop adds exactly the claim-side contribution. -/
lemma spentFold_step (asset : JsValue) (ws : Int) (q : ℚ) (log : LogEntry)
    (hts : log.timestamp.isSome)
    (hp : countedFull asset ws log →
      (jsParseFloat (jsToString (amountVal log))).isSome) :
    spentFold asset ws (some q) log = some (q + claimContribution asset ws log) := by
  obtain ⟨t, ht⟩ := Option.isSome_iff_exists.mp hts
  have hskip : tsSkip log ws = decide (t < ws) := by unfold tsSkip; rw [ht]
  have hwin : tsInWindow log ws = decide (ws ≤ t) := by unfold tsInWindow; rw [ht]
  unfold spentFold claimContribution
  by_cases hall : log.allowed = true
  · by_cases hlt : t < ws
    · rw [if_neg (by simp [hall]), if_pos (by rw [hskip]; simpa using hlt)]
      rw [if_neg (by rw [hwin]; simp [hall]; intro h; omega)]
      simp
    · rw [if_neg (by simp [hall]), if_neg (by rw [hskip]; simpa using hlt)]
      by_cases hassets : entryAsset log = asset
      · rw [if_neg (by simpa using hassets)]
        by_cases hamt : amountVal log = .undefined ∨ amountVal log = .null
        · rw [if_pos hamt]
          have hparse : jsParseFloat (jsToString (amountVal log)) = none := by
            rcases hamt with h | h <;> rw [h]
            · exact jsParseFloat_undefined
            · exact jsParseFloat_null
          rw [if_pos (by refine ⟨hall, ?_, hassets⟩; rw [hwin]; simpa using (by omega : ws ≤ t))]
          rw [hparse]
          simp
        · rw [if_neg hamt]
          obtain ⟨x, hx⟩ := Option.isSome_iff_exists.mp
            (hp ⟨hall, by rw [hskip]; simpa using hlt, hassets, hamt⟩)
          rw [if_pos (by refine ⟨hall, ?_, hassets⟩; rw [hwin]; simpa using (by omega : ws ≤ t))]
          rw [hx]
          simp [jsAdd]
      · rw [if_pos (by simpa using hassets), if_neg (fun h => hassets h.2.2)]
        simp
  · rw [if_pos (by simpa using hall), if_neg (by simp [hall])]
    simp

/-- Over a history of valid timestamps whose countable amounts parse, the
source's accumulator computes exactly the claim-side in-window sum. -/
lemma totalSpent_eq_claim (asset : JsValue) (ws : Int) (logs : List LogEntry)
    (hts : ∀ log ∈ logs, log.timestamp.isSome)
    (hp : ∀ log ∈ logs, countedFull asset ws log →
      (jsParseFloat (jsToString (amountVal log))).isSome) :
    ∀ q : ℚ, logs.foldl (spentFold asset ws) (some q) =
      some (q + inWindowAllowedSpend asset ws logs) := by
  induction logs with
  | nil => intro q; simp [inWindowAllowedSpend]
  | cons log rest ih =>
    intro q
    rw [List.foldl_cons,
      spentFold_step asset ws q log (hts log (by simp)) (hp log (by simp)),
      ih (fun l hl => hts l (by simp [hl])) (fun l hl => hp l (by simp [hl]))]
    simp [inWindowAllowedSpend, add_assoc]

/-- Under the EXACT-decimal reading of the arithmetic (the semantics the
specification's design notes prescribe, not what the binary64 source
computes - see `isWithinLimits64_boundary_iff` for the faithful version,
which is claim C2): the spend check permits the request if and only if the
exact in-window allowed spend plus the requested amount is at most the
configured maximum. -/
theorem isWithinLimits_boundary_iff (limitCfg : LimitConfig)
    (logs : List LogEntry) (now : Int) (amount : String) (r m : ℚ)
    (hts : ∀ log ∈ logs, log.timestamp.isSome)
    (hp : ∀ log ∈ logs,
      countedFull (.str limitCfg.asset) (now - (limitCfg.window_seconds : Int) * 1000) log →
      (jsParseFloat (jsToString (amountVal log))).isSome)
    (hr : jsParseFloat amount = some r)
    (hm : jsParseFloat limitCfg.amount = some m) :
    isWithinLimits (.str limitCfg.asset) amount limitCfg logs now = true ↔
      inWindowAllowedSpend (.str limitCfg.asset)
        (now - (limitCfg.window_seconds : Int) * 1000) logs + r ≤ m := by
  have hsum : totalSpent (.str limitCfg.asset)
      (now - (limitCfg.window_seconds : Int) * 1000) logs =
      some (inWindowAllowedSpend (.str limitCfg.asset)
        (now - (limitCfg.window_seconds : Int) * 1000) logs) := by
    unfold totalSpent
    rw [totalSpent_eq_claim (.str limitCfg.asset)
      (now - (limitCfg.window_seconds : Int) * 1000) logs hts hp 0, zero_add]
  have hrw : isWithinLimits (.str limitCfg.asset) amount limitCfg logs now =
      jsLe (jsAdd (totalSpent (.str limitCfg.asset)
          (now - (limitCfg.window_seconds : Int) * 1000) logs)
        (jsParseFloat amount)) (jsParseFloat limitCfg.amount) := by
    unfold isWithinLimits
    rw [if_neg (by simp)]
  rw [hrw, hsum, hr, hm]
  simp [jsAdd, jsLe]

/-- The boundary scenario under the exact-decimal reading: limit 25 USDC
per 24h, prior allowed spends of 10 and 5; a request for 10 is allowed
(total exactly 25) and a further request for 10 after that spend is
denied. -/
theorem isWithinLimits_boundary_iff_witness :
    isWithinLimits (.str "USDC") "10" ⟨"USDC", "25", 86400⟩
      [⟨some 0, "a1", "transfer", [("asset", .str "USDC"), ("amount", .str "10")], true, none⟩,
       ⟨some 3600000, "a1", "transfer", [("asset", .str "USDC"), ("amount", .str "5")], true, none⟩]
      7200000 = true ∧
    isWithinLimits (.str "USDC") "10" ⟨"USDC", "25", 86400⟩
      [⟨some 0, "a1", "transfer", [("asset", .str "USDC"), ("amount", .str "10")], true, none⟩,
       ⟨some 3600000, "a1", "transfer", [("asset", .str "USDC"), ("amount", .str "5")], true, none⟩,
       ⟨some 7200000, "a1", "transfer", [("asset", .str "USDC"), ("amount", .str "10")], true, none⟩]
      7200000 = false := by
  constructor
  · exact (isWithinLimits_boundary_iff ⟨"USDC", "25", 86400⟩ _ 7200000 "10" 10 25
      (by with_unfolding_all decide) (by with_unfolding_all decide) (by with_unfolding_all decide) (by with_unfolding_all decide)).mpr (by with_unfolding_all decide)
  · have h := isWithinLimits_boundary_iff ⟨"USDC", "25", 86400⟩
      [⟨some 0, "a1", "transfer", [("asset", .str "USDC"), ("amount", .str "10")], true, none⟩,
       ⟨some 3600000, "a1", "transfer", [("asset", .str "USDC"), ("amount", .str "5")], true, none⟩,
       ⟨some 7200000, "a1", "transfer", [("asset", .str "USDC"), ("amount", .str "10")], true, none⟩]
      7200000 "10" 10 25 (by with_unfolding_all decide) (by with_unfolding_all decide) (by with_unfolding_all decide) (by with_unfolding_all decide)
    exact Bool.eq_false_iff.mpr (fun hT => absurd (h.mp hT) (by with_unfolding_all decide))

/-- On an entry with a valid timestamp whose countable amount parses, one
step of the source's binary64 spend loop either adds the binary64-rounded
amount (when the entry is counted) or leaves the accumulator unchanged. -/
lemma spentFold64_step (asset : JsValue) (ws : Int) (q : ℚ) (log : LogEntry)
    (hts : log.timestamp.isSome)
    (hp : countedFull asset ws log →
      (jsParseFloat (jsToString (amountVal log))).isSome) :
    spentFold64 asset ws (some q) log =
      some (if counted64 asset ws log then
        roundToBinary64 (q + (jsParseFloat64 (jsToString (amountVal log))).getD 0)
      else q) := by
  obtain ⟨t, ht⟩ := Option.isSome_iff_exists.mp hts
  have hskip : tsSkip log ws = decide (t < ws) := by unfold tsSkip; rw [ht]
  have hwin : tsInWindow log ws = decide (ws ≤ t) := by unfold tsInWindow; rw [ht]
  unfold spentFold64
  by_cases hall : log.allowed = true
  · by_cases hlt : t < ws
    · have h0 : tsInWindow log ws = false := by
        rw [hwin]
        simpa using (by omega : ¬ ws ≤ t)
      have hcv : counted64 asset ws log = false := by
        simp [counted64, h0]
      rw [if_neg (by simp [hall]), if_pos (by rw [hskip]; simpa using hlt), hcv]
      simp
    · have h0 : tsInWindow log ws = true := by
        rw [hwin]
        simpa using (by omega : ws ≤ t)
      by_cases hassets : entryAsset log = asset
      · by_cases hamt : amountVal log = .undefined ∨ amountVal log = .null
        · have hcv : counted64 asset ws log = false := by
            have h1 : decide (amountVal log = JsValue.undefined ∨
                amountVal log = JsValue.null) = true := by
              simpa using hamt
            simp [counted64, h1]
          rw [if_neg (by simp [hall]), if_neg (by rw [hskip]; simpa using hlt),
            if_neg (by simpa using hassets), if_pos hamt, hcv]
          simp
        · have h1 : amountVal log ≠ JsValue.undefined ∧ amountVal log ≠ JsValue.null := by
            constructor <;> intro hx <;> exact hamt (by simp [hx])
          have hcv : counted64 asset ws log = true := by
            simp [counted64, hall, h0, hassets, h1.1, h1.2]
          obtain ⟨x, hx⟩ := Option.isSome_iff_exists.mp
            (hp ⟨hall, by rw [hskip]; simpa using hlt, hassets, hamt⟩)
          have hx64 : jsParseFloat64 (jsToString (amountVal log)) =
              some (roundToBinary64 x) := by
            unfold jsParseFloat64
            rw [hx]
            rfl
          rw [if_neg (by simp [hall]), if_neg (by rw [hskip]; simpa using hlt),
            if_neg (by simpa using hassets), if_neg hamt, hcv, hx64]
          simp [jsAdd64]
      · have h1 : decide (entryAsset log = asset) = false := by
          simpa using hassets
        have hcv : counted64 asset ws log = false := by
          simp [counted64, h1]
        rw [if_neg (by simp [hall]), if_neg (by rw [hskip]; simpa using hlt),
          if_pos (by simpa using hassets), hcv]
        simp
  · have h0 : log.allowed = false := by
      simpa using hall
    have hcv : counted64 asset ws log = false := by
      simp [counted64, h0]
    rw [if_pos (by simpa using hall), hcv]
    simp

/-- Over a history of valid timestamps whose countable amounts parse, the
source's binary64 accumulator computes exactly the claim-side binary64
in-window sum (a left fold with rounding over the counted entries). -/
lemma totalSpent64_eq_claim (asset : JsValue) (ws : Int) (logs : List LogEntry)
    (hts : ∀ log ∈ logs, log.timestamp.isSome)
    (hp : ∀ log ∈ logs, countedFull asset ws log →
      (jsParseFloat (jsToString (amountVal log))).isSome) :
    ∀ q : ℚ, logs.foldl (spentFold64 asset ws) (some q) =
      some ((logs.filter (counted64 asset ws)).foldl
        (fun acc log =>
          roundToBinary64 (acc + (jsParseFloat64 (jsToString (amountVal log))).getD 0))
        q) := by
  induction logs with
  | nil => intro q; simp
  | cons log rest ih =>
    intro q
    rw [List.foldl_cons, spentFold64_step asset ws q log (hts log (by simp))
      (hp log (by simp))]
    by_cases hc : counted64 asset ws log = true
    · rw [if_pos hc, ih (fun l hl => hts l (by simp [hl]))
        (fun l hl => hp l (by simp [hl]))]
      simp [List.filter_cons, hc]
    · rw [if_neg hc, ih (fun l hl => hts l (by simp [hl]))
        (fun l hl => hp l (by simp [hl]))]
      simp [List.filter_cons, hc]

/-- Claim C2 (amended): for an asset with a configured LimitRule, over a
history of valid timestamps whose counted amounts parse, the spend check
permits the request if and only if the binary64-accumulated in-window
allowed spend plus the binary64 value of the requested amount, rounded, is
at most the binary64 value of the configured maximum - the comparison the
source's `parseFloat`/native-float arithmetic actually performs, with
equality at the boundary permitted (`<=`, not `<`).  On amounts exactly
representable in binary64 (such as the spec's integer scenario, see the
witness) this coincides with exact decimal arithmetic; on amounts like 0.1
it does not (see the counterexample, which refutes the original exact-sum
reading).  Histories with malformed timestamps or unparsable amounts are
claims C3 and C5. -/
theorem isWithinLimits64_boundary_iff (limitCfg : LimitConfig)
    (logs : List LogEntry) (now : Int) (amount : String) (r m : ℚ)
    (hts : ∀ log ∈ logs, log.timestamp.isSome)
    (hp : ∀ log ∈ logs,
      countedFull (.str limitCfg.asset) (now - (limitCfg.window_seconds : Int) * 1000) log →
      (jsParseFloat (jsToString (amountVal log))).isSome)
    (hr : jsParseFloat64 amount = some r)
    (hm : jsParseFloat64 limitCfg.amount = some m) :
    isWithinLimits64 (.str limitCfg.asset) amount limitCfg logs now = true ↔
      roundToBinary64 (inWindowAllowedSpend64 (.str limitCfg.asset)
        (now - (limitCfg.window_seconds : Int) * 1000) logs + r) ≤ m := by
  have hsum : totalSpent64 (.str limitCfg.asset)
      (now - (limitCfg.window_seconds : Int) * 1000) logs =
      some (inWindowAllowedSpend64 (.str limitCfg.asset)
        (now - (limitCfg.window_seconds : Int) * 1000) logs) := by
    unfold totalSpent64 inWindowAllowedSpend64
    rw [totalSpent64_eq_claim (.str limitCfg.asset)
      (now - (limitCfg.window_seconds : Int) * 1000) logs hts hp 0]
  have hrw : isWithinLimits64 (.str limitCfg.asset) amount limitCfg logs now =
      jsLe (jsAdd64 (totalSpent64 (.str limitCfg.asset)
          (now - (limitCfg.window_seconds : Int) * 1000) logs)
        (jsParseFloat64 amount)) (jsParseFloat64 limitCfg.amount) := by
    unfold isWithinLimits64
    rw [if_neg (by simp)]
  rw [hrw, hsum, hr, hm]
  simp [jsAdd64, jsLe]

/-- Witness for C2, the claim's own scenario - every value is exactly
representable in binary64, so the rounded arithmetic agrees with exact
decimals: limit 25 USDC per 24h, prior allowed spends of 10 at t0 and 5 at
t0+1h; a request for 10 at t0+2h is allowed (total exactly 25, boundary
inclusive) and a further request for 10 after that spend is denied. -/
theorem isWithinLimits64_boundary_iff_witness :
    isWithinLimits64 (.str "USDC") "10" ⟨"USDC", "25", 86400⟩
      [⟨some 0, "a1", "transfer", [("asset", .str "USDC"), ("amount", .str "10")], true, none⟩,
       ⟨some 3600000, "a1", "transfer", [("asset", .str "USDC"), ("amount", .str "5")], true, none⟩]
      7200000 = true ∧
    isWithinLimits64 (.str "USDC") "10" ⟨"USDC", "25", 86400⟩
      [⟨some 0, "a1", "transfer", [("asset", .str "USDC"), ("amount", .str "10")], true, none⟩,
       ⟨some 3600000, "a1", "transfer", [("asset", .str "USDC"), ("amount", .str "5")], true, none⟩,
       ⟨some 7200000, "a1", "transfer", [("asset", .str "USDC"), ("amount", .str "10")], true, none⟩]
      7200000 = false := by
  constructor
  · exact (isWithinLimits64_boundary_iff ⟨"USDC", "25", 86400⟩ _ 7200000 "10" 10 25
      (by decide) (by with_unfolding_all decide) (by with_unfolding_all decide)
      (by with_unfolding_all decide)).mpr (by with_unfolding_all decide)
  · have h := isWithinLimits64_boundary_iff ⟨"USDC", "25", 86400⟩
      [⟨some 0, "a1", "transfer", [("asset", .str "USDC"), ("amount", .str "10")], true, none⟩,
       ⟨some 3600000, "a1", "transfer", [("asset", .str "USDC"), ("amount", .str "5")], true, none⟩,
       ⟨some 7200000, "a1", "transfer", [("asset", .str "USDC"), ("amount", .str "10")], true, none⟩]
      7200000 "10" 10 25 (by decide) (by with_unfolding_all decide)
      (by with_unfolding_all decide) (by with_unfolding_all decide)
    exact Bool.eq_false_iff.mpr (fun hT => absurd (h.mp hT) (by with_unfolding_all decide))

/-- Counterexample to C2 as stated: with a limit of 0.3 USDC and one prior
allowed in-window spend of 0.2, a request for 0.1 is denied by the source's
binary64 arithmetic (fl(0.2) + fl(0.1) rounds to 0.30000000000000004, which
exceeds fl(0.3)), although the exact in-window allowed spend plus the
requested amount equals the configured maximum (0.3 <= 0.3), which the
claim says must be permitted. -/
theorem isWithinLimits64_boundary_counterexample :
    isWithinLimits64 (.str "USDC") "0.1" ⟨"USDC", "0.3", 86400⟩
      [⟨some 0, "a1", "transfer",
        [("asset", .str "USDC"), ("amount", .str "0.2")], true, none⟩]
      1000 = false ∧
    inWindowAllowedSpend (.str "USDC") (1000 - 86400 * 1000)
      [⟨some 0, "a1", "transfer",
        [("asset", .str "USDC"), ("amount", .str "0.2")], true, none⟩]
      + (1 : ℚ) / 10 ≤ (3 : ℚ) / 10 := by
  constructor
  · with_unfolding_all decide
  · with_unfolding_all decide

/-- Claim C3 (code bug): a history entry whose stored timestamp does not
parse as a valid date IS counted by the source's spend accumulator (the JS
`new Date` NaN time value fails the `logTime < windowStart` skip test), so
the check denies the request, while the claim's sum - over entries whose
timestamp is a valid instant at or after the window start - excludes the
entry and would permit it.  The `try`/`catch`-`continue` around the
timestamp parse shows the intent to skip such entries, but `new Date` never
throws. -/
theorem invalid_timestamp_entry_counted :
    isWithinLimits (.str "USDC") "10" ⟨"USDC", "25", 3600⟩
      [⟨none, "a1", "transfer",
        [("asset", .str "USDC"), ("amount", .str "20")], true, none⟩]
      10000000000 = false ∧
    inWindowAllowedSpend (.str "USDC") (10000000000 - 3600 * 1000)
      [⟨none, "a1", "transfer",
        [("asset", .str "USDC"), ("amount", .str "20")], true, none⟩] + 10 ≤ 25 := by
  constructor
  · with_unfolding_all decide
  · with_unfolding_all decide

/-- Claim C4 (code bug): the source sums and compares amounts with
`parseFloat` and native binary64 floats, not exact decimals.  With a limit
of 0.3, a prior allowed spend of 0.1 and a request of 0.2, the binary64
computation gives 0.1 + 0.2 = 0.30000000000000004 > 0.3 and denies, while
the exact decimal arithmetic prescribed by the specification gives
0.3 <= 0.3 and allows. -/
theorem float_rounding_diverges_from_decimal :
    isWithinLimits64 (.str "USDC") "0.2" ⟨"USDC", "0.3", 86400⟩
      [⟨some 0, "a1", "transfer",
        [("asset", .str "USDC"), ("amount", .str "0.1")], true, none⟩]
      1000 = false ∧
    isWithinLimits (.str "USDC") "0.2" ⟨"USDC", "0.3", 86400⟩
      [⟨some 0, "a1", "transfer",
        [("asset", .str "USDC"), ("amount", .str "0.1")], true, none⟩]
      1000 = true := by
  constructor
  · with_unfolding_all decide
  · with_unfolding_all decide

/-- Claim C5 (code bug): a history entry whose amount does not parse as a
number does NOT contribute zero - JS `parseFloat` returns NaN instead of
throwing (the `catch`-`continue` is dead code), the NaN poisons the running
sum, and the check denies, while under the claim's semantics the entry
contributes zero and the request (0 + 10 <= 25) would be permitted. -/
theorem unparsable_amount_denies :
    isWithinLimits (.str "USDC") "10" ⟨"USDC", "25", 86400⟩
      [⟨some 0, "a1", "transfer",
        [("asset", .str "USDC"), ("amount", .str "abc")], true, none⟩]
      1000 = false ∧
    inWindowAllowedSpend (.str "USDC") (1000 - 86400 * 1000)
      [⟨some 0, "a1", "transfer",
        [("asset", .str "USDC"), ("amount", .str "abc")], true, none⟩] + 10 ≤ 25 := by
  constructor
  · with_unfolding_all decide
  · with_unfolding_all decide

/-- A single rule matches iff every constraint's string-normalized value
equals the bag's string-normalized value for that key (an absent key reads
as `undefined`); an empty constraint list is the vacuous case. -/
lemma ruleMatches_iff (rule : AllowRule) (params : List (String × JsValue)) :
    ruleMatches rule params = true ↔
      ∀ kv ∈ rule.constraints,
        jsToString (lookupParam params kv.1) = jsToString kv.2 := by
  unfold ruleMatches
  by_cases h : rule.constraints.isEmpty
  · rw [if_pos h]
    simp [List.isEmpty_iff.mp h]
  · rw [if_neg h]
    simp [List.all_eq_true]

/-- The allowlist decision equals an `any` over the action-type-filtered
rules (the explicit empty test in the source is redundant for the boolean
result). -/
lemma isActionAllowedByRules_eq_any (actionType : String)
    (params : List (String × JsValue)) (rules : List AllowRule) :
    isActionAllowedByRules actionType params rules =
      (rules.filter (fun r => r.action_type == actionType)).any
        (fun r => ruleMatches r params) := by
  show (if (rules.filter (fun r => r.action_type == actionType)).isEmpty
        then false
        else (rules.filter (fun r => r.action_type == actionType)).any
          (fun r => ruleMatches r params)) = _
  by_cases h : (rules.filter (fun r => r.action_type == actionType)).isEmpty
  · rw [if_pos h, List.isEmpty_iff.mp h]
    simp
  · rw [if_neg h]

/-- Claim C8 (amended): the rule matcher returns true iff some rule with
equal action type has every constraint's string-normalized value equal to
the string-normalized value the parameter bag yields for that key, where an
absent key reads as JS `undefined` (normalizing to the string
"undefined"); in particular a rule with an empty constraint mapping matches
any bag for its action type.  (The original claim additionally required
every constraint key to be PRESENT in the bag; the counterexample shows a
constraint whose value normalizes to "undefined" matching an absent key.) -/
theorem isActionAllowedByRules_iff (actionType : String)
    (params : List (String × JsValue)) (rules : List AllowRule) :
    isActionAllowedByRules actionType params rules = true ↔
      ∃ r ∈ rules, r.action_type = actionType ∧
        ∀ kv ∈ r.constraints,
          jsToString (lookupParam params kv.1) = jsToString kv.2 := by
  rw [isActionAllowedByRules_eq_any, List.any_eq_true]
  constructor
  · rintro ⟨r, hr, hm⟩
    rw [List.mem_filter] at hr
    exact ⟨r, hr.1, by simpa using hr.2, (ruleMatches_iff r params).mp hm⟩
  · rintro ⟨r, hr, hat, hm⟩
    exact ⟨r, List.mem_filter.mpr ⟨hr, by simpa using hat⟩,
      (ruleMatches_iff r params).mpr hm⟩

/-- Counterexample to C8 as stated: a rule for `swap` constrained to
`protocol = "undefined"` matches a request with NO protocol key at all
(JS stringifies the absent key's `undefined` to "undefined"), yet the
claim's matcher - which requires every constraint key to be present in the
bag - says no rule matches. -/
theorem ruleMatches_absent_key_counterexample :
    isActionAllowedByRules "swap" []
      [⟨"swap", [("protocol", JsValue.str "undefined")]⟩] = true ∧
    claimMatcher "swap" []
      [⟨"swap", [("protocol", JsValue.str "undefined")]⟩] = false := by
  constructor
  · decide
  · decide

/-- For a nonempty all-digit string followed by one unit character,
`parseTimeWindow` dispatches on the lower-cased unit. -/
lemma parseTimeWindow_digits_unit (ds : List Char) (u : Char)
    (hne : ds ≠ []) (hdig : ds.all Char.isDigit = true) :
    parseTimeWindow (String.mk (ds ++ [ u ])) =
      (if u.toLower = 'h' then
        .ok (roundToBinary64 (roundToBinary64 ((digitsVal ds : ℕ) : ℚ) * 3600))
       else if u.toLower = 'd' then
        .ok (roundToBinary64 (roundToBinary64 ((digitsVal ds : ℕ) : ℚ) * 86400))
       else .error (invalidWindowMessage (String.mk (ds ++ [ u ])))) := by
  unfold parseTimeWindow
  have hrev : (String.mk (ds ++ [ u ])).data.reverse = u :: ds.reverse := by
    simp
  rw [hrev]
  simp only [List.reverse_reverse]
  rw [if_neg hne, if_pos hdig]

/-- Claim C7 (amended): every token consisting of a nonempty digit string
(zero and leading zeros included - the regex accepts any `\d+`, not only
positive counts) followed by a unit in h/H/d/D parses successfully, and
whenever the count `n` satisfies `n * 86400 < 2^53` - so that `parseInt`
and the unit multiplication are exact in binary64 - the result is exactly
`n * 3600` (for h) or `n * 86400` (for d); larger counts come back
binary64-rounded.  Every token admitting no digits-plus-unit decomposition
fails with `InvalidWindowFormat`, every failure message carries the
offending token, and the malformed shapes the spec names ("abc", "-5h",
"5x", "") all fail. -/
theorem parseTimeWindow_spec :
    (∀ ds : List Char, ds ≠ [] → ds.all Char.isDigit = true →
      digitsVal ds * 86400 < 2 ^ 53 →
      parseTimeWindow (String.mk (ds ++ [ 'h' ])) =
        .ok ((digitsVal ds * 3600 : ℕ) : ℚ) ∧
      parseTimeWindow (String.mk (ds ++ [ 'H' ])) =
        .ok ((digitsVal ds * 3600 : ℕ) : ℚ) ∧
      parseTimeWindow (String.mk (ds ++ [ 'd' ])) =
        .ok ((digitsVal ds * 86400 : ℕ) : ℚ) ∧
      parseTimeWindow (String.mk (ds ++ [ 'D' ])) =
        .ok ((digitsVal ds * 86400 : ℕ) : ℚ)) ∧
    (∀ s : String,
      (∀ ds u, s.data = ds ++ [ u ] → ds ≠ [] → ds.all Char.isDigit = true →
        u.toLower = 'h' ∨ u.toLower = 'd' → False) →
      parseTimeWindow s = .error (invalidWindowMessage s)) ∧
    (∀ s e, parseTimeWindow s = .error e → e = invalidWindowMessage s) ∧
    parseTimeWindow "abc" = .error (invalidWindowMessage "abc") ∧
    parseTimeWindow "-5h" = .error (invalidWindowMessage "-5h") ∧
    parseTimeWindow "5x" = .error (invalidWindowMessage "5x") ∧
    parseTimeWindow "" = .error (invalidWindowMessage "") := by
  refine ⟨?_, ?_, ?_, by decide, by decide, by decide, by decide⟩
  · intro ds hne hdig hsmall
    have hn53 : digitsVal ds < 2 ^ 53 := by
      rcases Nat.eq_zero_or_pos (digitsVal ds) with h0 | hpos
      · omega
      · have hh : digitsVal ds ≤ digitsVal ds * 86400 := by nlinarith
        omega
    have h3600 : digitsVal ds * 3600 < 2 ^ 53 := by
      have hh : digitsVal ds * 3600 ≤ digitsVal ds * 86400 := by nlinarith
      omega
    have hx1 : roundToBinary64 ((digitsVal ds : ℕ) : ℚ) = ((digitsVal ds : ℕ) : ℚ) :=
      roundToBinary64_nat_exact _ hn53
    have hc3600 : ((digitsVal ds : ℕ) : ℚ) * 3600 = ((digitsVal ds * 3600 : ℕ) : ℚ) := by
      push_cast
      ring
    have hc86400 : ((digitsVal ds : ℕ) : ℚ) * 86400 = ((digitsVal ds * 86400 : ℕ) : ℚ) := by
      push_cast
      ring
    refine ⟨?_, ?_, ?_, ?_⟩
    · rw [parseTimeWindow_digits_unit ds _ hne hdig, if_pos (by decide), hx1, hc3600,
        roundToBinary64_nat_exact _ h3600]
    · rw [parseTimeWindow_digits_unit ds _ hne hdig, if_pos (by decide), hx1, hc3600,
        roundToBinary64_nat_exact _ h3600]
    · rw [parseTimeWindow_digits_unit ds _ hne hdig, if_neg (by decide),
        if_pos (by decide), hx1, hc86400, roundToBinary64_nat_exact _ hsmall]
    · rw [parseTimeWindow_digits_unit ds _ hne hdig, if_neg (by decide),
        if_pos (by decide), hx1, hc86400, roundToBinary64_nat_exact _ hsmall]
  · intro s hno
    rcases hrev : s.data.reverse with _ | ⟨u, revRest⟩
    · unfold parseTimeWindow
      rw [hrev]
    · unfold parseTimeWindow
      rw [hrev]
      have hs : s.data = revRest.reverse ++ [ u ] := by
        have h2 := congrArg List.reverse hrev
        simpa using h2
      show (if revRest.reverse = [] then Except.error (invalidWindowMessage s)
        else if (revRest.reverse).all Char.isDigit then
          if u.toLower = 'h' then
            Except.ok (roundToBinary64
              (roundToBinary64 ((digitsVal revRest.reverse : ℕ) : ℚ) * 3600))
          else if u.toLower = 'd' then
            Except.ok (roundToBinary64
              (roundToBinary64 ((digitsVal revRest.reverse : ℕ) : ℚ) * 86400))
          else Except.error (invalidWindowMessage s)
        else Except.error (invalidWindowMessage s)) =
        Except.error (invalidWindowMessage s)
      split_ifs with hc1 hc2 hc3 hc4
      · rfl
      · exact (hno revRest.reverse u hs hc1 hc2 (Or.inl hc3)).elim
      · exact (hno revRest.reverse u hs hc1 hc2 (Or.inr hc4)).elim
      · rfl
      · rfl
  · intro s e h
    unfold parseTimeWindow at h
    split at h
    · injection h with h2
      exact h2.symm
    · split_ifs at h
      all_goals injection h with h2
      all_goals exact h2.symm

/-- Witness for C7: the canonical valid token "24h" parses to 86400
seconds exactly. -/
theorem parseTimeWindow_spec_witness : parseTimeWindow "24h" = Except.ok 86400 := by
  have h := (parseTimeWindow_spec.1 [ '2', '4' ] (by decide) (by decide) (by decide)).1
  rw [show String.mk ([ '2', '4' ] ++ [ 'h' ]) = "24h" from by decide] at h
  rw [h]
  have h24 : digitsVal [ '2', '4' ] = 24 := by decide
  rw [h24]
  norm_num

/-- Counterexample to C7 as stated: the claim says a zero count must fail
with `InvalidWindowFormat`, but the source's regex `^(\d+)([hd])$` accepts
"0h" and returns a zero-second window. -/
theorem parseTimeWindow_zero_counterexample : parseTimeWindow "0h" = Except.ok 0 := by
  with_unfolding_all decide

/-- Claim C6 (amended): when no allow-rule's action type equals the
request's action type, `authorize` returns false and logs the reason
"Action not in allowlist" (so spelled in the source - the claim quotes it
as "action not in allowlist"), provided the denial log append succeeds. -/
theorem authorize_unknown_action_denied (cfg : AgentConfig)
    (logs : List LogEntry) (a2 : Except String Unit) (agentId : String)
    (now : Int) (actionType : String) (params : List (String × JsValue))
    (h : ∀ r ∈ cfg.allow_rules, r.action_type ≠ actionType) :
    authorizeE (.ok (some cfg)) (.ok logs) (.ok ()) a2 agentId now actionType
      params = .ok (false, some "Action not in allowlist") := by
  have hfalse : isActionAllowedByRules actionType params cfg.allow_rules = false := by
    rw [isActionAllowedByRules_eq_any,
      List.filter_eq_nil_iff.mpr (fun r hr => by simpa using h r hr)]
    rfl
  simp [authorizeE, hfalse, afterAppend]

/-- Witness for C6: an agent allowing only `transfer` denies a `swap`
request with the allowlist reason. -/
theorem authorize_unknown_action_denied_witness :
    authorizeE (.ok (some ⟨"a1", "0xw", [], [⟨"transfer", []⟩]⟩)) (.ok [])
      (.ok ()) (.ok ()) "a1" 0 "swap" [] =
      .ok (false, some "Action not in allowlist") :=
  authorize_unknown_action_denied _ _ _ _ _ _ _ (by decide)

/-- Counterexample to C6 as stated: the logged reason is
"Action not in allowlist" with a capital A, not the claim's exact string
"action not in allowlist". -/
theorem authorize_reason_capitalization_counterexample :
    authorizeE (.ok (some ⟨"a1", "0xw", [], []⟩)) (.ok []) (.ok ()) (.ok ())
      "a1" 0 "swap" [] = .ok (false, some "Action not in allowlist") ∧
    "Action not in allowlist" ≠ "action not in allowlist" := by
  constructor
  · decide
  · decide

/-- Claim C9: `authorize` is deterministic under replay - the verdict is a
function of the agent's stored configuration, the agent's own decision-log
history, the clock value and the request; two storage states presenting the
same view of the agent produce identical outcomes. -/
theorem authorize_deterministic (s1 s2 : StorageData) (agentId : String)
    (now : Int) (actionType : String) (params : List (String × JsValue))
    (h1 : loadAgent s1 agentId = loadAgent s2 agentId)
    (h2 : getLogs s1 agentId = getLogs s2 agentId) :
    authorizeS s1 agentId now actionType params =
      authorizeS s2 agentId now actionType params := by
  unfold authorizeS
  rw [h1, h2]

/-- Witness for C9: two storage states that agree on agent "a1" (the second
also holds an unrelated agent and its log entry) give the same decision. -/
theorem authorize_deterministic_witness :
    authorizeS ⟨[("a1", ⟨"a1", "0xw", [], [⟨"transfer", []⟩]⟩)], []⟩
      "a1" 0 "transfer" [] =
    authorizeS ⟨[("a1", ⟨"a1", "0xw", [], [⟨"transfer", []⟩]⟩),
        ("b2", ⟨"b2", "0xv", [], []⟩)],
      [⟨some 0, "b2", "swap", [], true, none⟩]⟩
      "a1" 0 "transfer" [] :=
  authorize_deterministic _ _ _ _ _ _ (by decide) (by decide)

/-- Claim C10: when the request's amount is falsy (absent, the number 0,
the empty string, or null) or the bag has neither a truthy asset nor a
truthy token, `authorize` performs no spend-limit check and returns true
whenever the allowlist matches, even if a LimitRule is configured (the
limit branch guard `amount && asset && config.limits[asset]` fails). -/
theorem authorize_skips_limit_check (cfg : AgentConfig) (logs : List LogEntry)
    (a2 : Except String Unit) (agentId : String) (now : Int)
    (actionType : String) (params : List (String × JsValue))
    (hallow : isActionAllowedByRules actionType params cfg.allow_rules = true)
    (hskip : truthy (lookupParam params "amount") = false ∨
      (truthy (lookupParam params "asset") = false ∧
       truthy (lookupParam params "token") = false)) :
    authorizeE (.ok (some cfg)) (.ok logs) (.ok ()) a2 agentId now actionType
      params = .ok (true, none) := by
  have hguard : (if truthy (lookupParam params "amount") ∧
      truthy (jsOr (lookupParam params "asset") (lookupParam params "token"))
      then lookupLimit cfg.limits
        (jsToString (jsOr (lookupParam params "asset")
          (lookupParam params "token")))
      else none) = none := by
    rcases hskip with h | ⟨ha, ht⟩
    · rw [if_neg]
      simp [h]
    · rw [if_neg]
      simp [jsOr, ha, ht]
  simp only [authorizeE, hallow, hguard, afterAppend]
  simp

/-- Witness for C10: amount 0 with a configured USDC limit - the limit
check is skipped and the allowlisted action is permitted. -/
theorem authorize_skips_limit_check_witness :
    authorizeE (.ok (some ⟨"a1", "0xw", [("USDC", ⟨"USDC", "25", 86400⟩)],
        [⟨"transfer", []⟩]⟩))
      (.ok []) (.ok ()) (.ok ()) "a1" 0 "transfer"
      [("amount", .int 0), ("asset", .str "USDC")] = .ok (true, none) :=
  authorize_skips_limit_check _ _ _ _ _ _ _ (by decide) (Or.inl (by decide))

/-- Claim C1 (amended): if an unexpected fault occurs while `authorize`
performs the rule check (the stored configuration cannot be read) or the
limit check (the log history cannot be read), then - provided the catch
block's denial log append does not itself throw - `authorize` returns
false; and in no case does an internal failure make it return a true
verdict.  (As stated the claim is refuted by the case in which the denial
log append also throws: the exception then propagates and `authorize`
returns nothing at all.) -/
theorem authorize_fail_closed (load : Except String (Option AgentConfig))
    (logsRes : Except String (List LogEntry)) (a1 a2 : Except String Unit)
    (agentId : String) (now : Int) (actionType : String)
    (params : List (String × JsValue))
    (hfault : (∃ e, load = .error e) ∨
      (∃ cfg e, load = .ok (some cfg) ∧
        isActionAllowedByRules actionType params cfg.allow_rules = true ∧
        limitNeeded cfg params = true ∧ logsRes = .error e)) :
    (a2 = .ok () → ∃ reason, authorizeE load logsRes a1 a2 agentId now
      actionType params = .ok (false, reason)) ∧
    (∀ b r, authorizeE load logsRes a1 a2 agentId now actionType params =
      .ok (b, r) → b = false) := by
  have hinner : ∃ e0, authorizeE load logsRes a1 a2 agentId now actionType
      params =
      match a2 with
      | .ok _ => .ok (false, some ("Error during authorization: " ++ e0))
      | .error e2 => .error e2 := by
    rcases hfault with ⟨e, he⟩ | ⟨cfg, e, hld, hrule, hlim, hlogs⟩
    · exact ⟨e, by simp [authorizeE, he]; cases a2 <;> rfl⟩
    · have h3 := hlim
      unfold limitNeeded at h3
      rw [Bool.and_eq_true, Bool.and_eq_true] at h3
      obtain ⟨⟨ham, has⟩, hsome⟩ := h3
      obtain ⟨lc, hlc⟩ := Option.isSome_iff_exists.mp hsome
      refine ⟨e, ?_⟩
      simp [authorizeE, hld, hrule, ham, has, hlc, hlogs]
      cases a2 <;> rfl
  obtain ⟨e0, he0⟩ := hinner
  constructor
  · intro ha2
    rw [he0, ha2]
    exact ⟨some ("Error during authorization: " ++ e0), rfl⟩
  · intro b r hbr
    rw [he0] at hbr
    cases a2 <;> simp_all

/-- Witness for C1: an unreadable policy store (the `loadAgent` read
throws) with a healthy log append yields a false verdict. -/
theorem authorize_fail_closed_witness :
    ∃ reason, authorizeE (.error "ENOENT") (.ok []) (.ok ()) (.ok ())
      "a1" 0 "transfer" [] = .ok (false, reason) :=
  (authorize_fail_closed _ _ _ _ _ _ _ _ (Or.inl ⟨"ENOENT", rfl⟩)).1 rfl

/-- Counterexample to C1 as stated: when storage is unreadable during the
limit check AND the catch block's denial log append throws as well (the
realistic case - the same broken store backs both), `authorize` propagates
the exception instead of returning false. -/
theorem authorize_double_fault_throws :
    authorizeE (.ok (some ⟨"a1", "0xw", [("USDC", ⟨"USDC", "25", 86400⟩)],
        [⟨"transfer", []⟩]⟩))
      (.error "EIO") (.ok ()) (.error "EIO") "a1" 0 "transfer"
      [("amount", .str "10"), ("asset", .str "USDC")] = .error "EIO" := by
  decide
